import Mathlib

/-
Shallow embedding of the input-injection subsystem of the pikvm-lib
client library:

  * pikvm_keyboard.py : shift classification (_requires_shift), keycode
    resolution (_key_to_keycode), keyUp / keyDown / press / hotkey;
  * pikvm_websocket.py : the tokenizer (_find_special_keys), the
    sequencer (_send_shift_key, _send_standard_keys, _send_extra_key,
    send_key, send_ctrl_alt_sup, send_input), the CSV keymap loader
    (_map_csv) and the send retry loop (_send_with_retry);
  * pikvm_mouse.py : _scale_mouse_xy_to_i16.

Strings are modelled over their ASCII fragment (all inputs exercised by
the library's key handling are ASCII), Python floats by exact rational
arithmetic, and the transport by the sequence of key events handed to
the websocket send call.  Sleeps are kept only where a claim speaks
about pacing (the Act type); elsewhere the event list is the
observable.
-/

/-- A key event handed to the transport: the keycode string of the
serialized JSON frame and its state field (true = press). -/
structure KeyEv where
  key : String
  state : Bool
deriving DecidableEq, Repr

/-- An observable action of the sequencer: a transport send or a
time.sleep pause (recorded in milliseconds). -/
inductive Act where
  | send (e : KeyEv)
  | sleep (ms : Nat)
deriving DecidableEq, Repr

/-- Project the transport-visible events out of an action list. -/
def acts_events (as : List Act) : List KeyEv :=
  as.filterMap (fun a => match a with | .send e => some e | .sleep _ => none)

/-- A keymap as loaded from a two-column CSV resource: an association
list from source names to keycodes (Python dict, insertion ordered). -/
abbrev KeyMap := List (String × String)

/-- Python `m[k]` / `k in m` on a keymap: the value stored at key k,
if any. -/
def findKey (m : KeyMap) (k : String) : Option String :=
  (m.find? (fun p => p.1 == k)).map (·.2)

/-- ASCII model of Python's classification of an upper-case letter. -/
def pyIsUpperChar (c : Char) : Bool := 65 ≤ c.toNat && c.toNat ≤ 90

/-- ASCII model of Python's classification of a lower-case letter. -/
def pyIsLowerChar (c : Char) : Bool := 97 ≤ c.toNat && c.toNat ≤ 122

/-- ASCII model of Python's str.isdigit on one character. -/
def pyIsDigitChar (c : Char) : Bool := 48 ≤ c.toNat && c.toNat ≤ 57

/-- ASCII model of Python's str.isspace on one character
(space, tab, newline, carriage return, vertical tab, form feed). -/
def pyIsSpaceChar (c : Char) : Bool :=
  c.toNat == 32 || c.toNat == 9 || c.toNat == 10 || c.toNat == 13 ||
  c.toNat == 11 || c.toNat == 12

/-- ASCII model of Python's str.isalpha on one character. -/
def pyIsAlphaChar (c : Char) : Bool := pyIsUpperChar c || pyIsLowerChar c

/-- ASCII model of Python's str.isupper: at least one cased character
and no lower-case character. -/
def pyIsUpper (s : String) : Bool :=
  s.data.all (fun c => !pyIsLowerChar c) && s.data.any pyIsUpperChar

/-- ASCII model of Python's str.isdigit: nonempty and all digits. -/
def pyIsDigitStr (s : String) : Bool :=
  !s.data.isEmpty && s.data.all pyIsDigitChar

/-- ASCII model of Python's str.isspace: nonempty and all whitespace. -/
def pyIsSpaceStr (s : String) : Bool :=
  !s.data.isEmpty && s.data.all pyIsSpaceChar

/-- Python "c in s" for a single character c: membership in the
character sequence. -/
def str_contains_char (s : String) (c : Char) : Bool := s.data.contains c

/-- ASCII model of Python's str.upper on one character. -/
def pyToUpperChar (c : Char) : Char :=
  if pyIsLowerChar c then Char.ofNat (c.toNat - 32) else c

/-- ASCII model of Python's str.upper. -/
def pyToUpper (s : String) : String := String.mk (s.data.map pyToUpperChar)

/-- The three keymap tables held by a connected client: map_csv
(unshifted, keymap.csv), map_shift_csv (keymap_shift.csv) and the
pyautogui alias map (keymap_pyautogui.csv).  Loaded once, read-only. -/
structure KeyMaps where
  map_csv : KeyMap
  map_shift_csv : KeyMap
  map_csv_pyautogui : KeyMap

/-- PiKVMKeyboard._requires_shift:
key.isupper() or key == double-quote or key in map_shift_csv. -/
def requires_shift (map_shift_csv : KeyMap) (key : String) : Bool :=
  pyIsUpper key || key == "\"" || (findKey map_shift_csv key).isSome

/-- PiKVMKeyboard._key_to_keycode: looks the key up raw and then in
angle-bracket padded form against map_csv, then map_shift_csv, then the
pyautogui map; falls back to Digit / Space / Quote / Key&lt;UPPER&gt;. -/
def key_to_keycode (map_csv map_shift_csv map_csv_pyautogui : KeyMap)
    (key : String) : String :=
  let padded_key :=
    if !(str_contains_char key '<') && !(str_contains_char key '>') then
      "<" ++ key ++ ">"
    else key
  match findKey map_csv key with
  | some v => v
  | none =>
    match findKey map_csv padded_key with
    | some v => v
    | none =>
      match findKey map_shift_csv key with
      | some v => v
      | none =>
        match findKey map_shift_csv padded_key with
        | some v => v
        | none =>
          match findKey map_csv_pyautogui key with
          | some v => v
          | none =>
            if pyIsDigitStr key then "Digit" ++ key
            else if pyIsSpaceStr key then "Space"
            else if key == "\"" then "Quote"
            else "Key" ++ pyToUpper key

/-- Keycode resolution against the full table set. -/
def keycodeOf (M : KeyMaps) (key : String) : String :=
  key_to_keycode M.map_csv M.map_shift_csv M.map_csv_pyautogui key

/-- PiKVMKeyboard.keyDown: if the key requires shift, first recursively
keyDown "shift", then send the key's own press.  The Python recursion
is modelled with fuel; none marks fuel exhaustion (the Python code
would recurse forever in that case). -/
def keyDown_events (M : KeyMaps) : Nat → String → Option (List KeyEv)
  | 0, _ => none
  | fuel + 1, key =>
    if requires_shift M.map_shift_csv key then
      (keyDown_events M fuel "shift").map
        (fun pre => pre ++ [⟨keycodeOf M key, true⟩])
    else some [⟨keycodeOf M key, true⟩]

/-- PiKVMKeyboard.keyUp: if the key requires shift, first recursively
keyUp "shift", then send the key's own release. -/
def keyUp_events (M : KeyMaps) : Nat → String → Option (List KeyEv)
  | 0, _ => none
  | fuel + 1, key =>
    if requires_shift M.map_shift_csv key then
      (keyUp_events M fuel "shift").map
        (fun pre => pre ++ [⟨keycodeOf M key, false⟩])
    else some [⟨keycodeOf M key, false⟩]

/-- PiKVMKeyboard.press: keyDown, sleep delay (default 50 ms), keyUp. -/
def press_acts (M : KeyMaps) (fuel : Nat) (key : String) :
    Option (List Act) := do
  let d ← keyDown_events M fuel key
  let u ← keyUp_events M fuel key
  pure (d.map Act.send ++ [Act.sleep 50] ++ u.map Act.send)

/-- The transport events of one keyboard press call. -/
def press_events (M : KeyMaps) (fuel : Nat) (key : String) :
    Option (List KeyEv) :=
  (press_acts M fuel key).map acts_events

/-- Sequence a list of optional results (fails if any element fails). -/
def seqOpt {α : Type} : List (Option α) → Option (List α)
  | [] => some []
  | none :: _ => none
  | some a :: os => (seqOpt os).map (a :: ·)

/-- PiKVMKeyboard.hotkey: keyDown each key in listed order (sleep 50 ms
after each), then keyUp in reversed order (sleep 50 ms after each). -/
def hotkey_acts (M : KeyMaps) (fuel : Nat) (keys : List String) :
    Option (List Act) := do
  let ds ← seqOpt (keys.map (keyDown_events M fuel))
  let us ← seqOpt (keys.reverse.map (keyUp_events M fuel))
  pure ((ds.map (fun d => d.map Act.send ++ [Act.sleep 50])).flatten ++
        (us.map (fun u => u.map Act.send ++ [Act.sleep 50])).flatten)

/-- The transport events of one keyboard hotkey call. -/
def hotkey_events (M : KeyMaps) (fuel : Nat) (keys : List String) :
    Option (List KeyEv) :=
  (hotkey_acts M fuel keys).map acts_events

/-- PiKVMWebsocket.send_key: press then release of one keycode (the
50 ms / 1 ms sleeps in between carry no claim content here). -/
def send_key_events (key : String) : List KeyEv :=
  [⟨key, true⟩, ⟨key, false⟩]

/-- PiKVMWebsocket._send_shift_key: ShiftLeft press, send_key of the
target keycode, ShiftLeft release. -/
def send_shift_key_events (key : String) : List KeyEv :=
  ⟨"ShiftLeft", true⟩ :: send_key_events key ++ [⟨"ShiftLeft", false⟩]

/-- PiKVMWebsocket._send_standard_keys on a single character: upper
case goes shift-wrapped as Key&lt;UPPER&gt;, digits as Digit&lt;d&gt;, whitespace
as Space, anything else as Key&lt;UPPER&gt;. -/
def send_standard_keys_events (key : Char) : List KeyEv :=
  if pyIsUpper key.toString then
    send_shift_key_events ("Key" ++ pyToUpper key.toString)
  else if pyIsDigitStr key.toString then
    send_key_events ("Digit" ++ key.toString)
  else if pyIsSpaceStr key.toString then
    send_key_events "Space"
  else
    send_key_events ("Key" ++ pyToUpper key.toString)

/-- PiKVMWebsocket._send_extra_key on a single character: try map_csv
(send_key of its value); on KeyError, for the double-quote character
first shift-send the hard-coded "Quote", then try map_shift_csv
(shift-send its value); a second KeyError only logs, so a character
absent from both maps contributes nothing beyond the quote special
case. -/
def send_extra_key_events (map_csv map_shift_csv : KeyMap) (key : Char) :
    List KeyEv :=
  match findKey map_csv key.toString with
  | some v => send_key_events v
  | none =>
    (if key == '"' then send_shift_key_events "Quote" else []) ++
    (match findKey map_shift_csv key.toString with
     | some v => send_shift_key_events v
     | none => [])

/-- A regular-expression word character, ASCII model of \w. -/
def isWordChar (c : Char) : Bool :=
  pyIsAlphaChar c || pyIsDigitChar c || c == '_'

/-- One match of the pattern "&lt;word&gt;": start offset, end offset
(exclusive, Python m.end()) and the captured word group. -/
structure SpecialMatch where
  start : Nat
  stop : Nat
  word : String
deriving DecidableEq, Repr

/-- The full matched text of a SpecialMatch, Python m.group(). -/
def SpecialMatch.group (m : SpecialMatch) : String :=
  "<" ++ m.word ++ ">"

/-- Left-to-right non-overlapping scan of re.finditer for the pattern
"&lt; word-characters &gt;": at an opening bracket take the maximal word
run; it is a match iff the run is nonempty and a closing bracket
follows (the regex cannot backtrack to a shorter run because a shorter
run would have to be closed by a word character). -/
def raw_matches_aux : List Char → Nat → List SpecialMatch
  | [], _ => []
  | c :: rest, i =>
    if c = '<' then
      let w := rest.takeWhile isWordChar
      if w.isEmpty then raw_matches_aux rest (i + 1)
      else if (rest.dropWhile isWordChar).head? = some '>' then
        ⟨i, i + w.length + 2, String.mk w⟩ ::
          raw_matches_aux (rest.drop (w.length + 1)) (i + w.length + 2)
      else raw_matches_aux rest (i + 1)
    else raw_matches_aux rest (i + 1)
termination_by cs => cs.length
decreasing_by
  all_goals simp only [List.length_cons, List.length_drop]
  all_goals omega

/-- All raw regex matches of "&lt;word&gt;" in a text, with offsets. -/
def raw_matches (text : String) : List SpecialMatch :=
  raw_matches_aux text.data 0

/-- Python list prefix test used to build the substring test. -/
def list_prefixOf : List Char → List Char → Bool
  | [], _ => true
  | _ :: _, [] => false
  | a :: as, b :: bs => a == b && list_prefixOf as bs

/-- Python substring containment (the str "in" operator). -/
def list_infixOf (needle : List Char) : List Char → Bool
  | [] => needle.isEmpty
  | c :: rest => list_prefixOf needle (c :: rest) || list_infixOf needle rest

/-- Python "needle in hay" on strings. -/
def py_in_str (needle hay : String) : Bool := list_infixOf needle.data hay.data

/-- PiKVMWebsocket._find_special_keys: keep a raw "&lt;word&gt;" match iff
any key of map_csv occurs as a substring of the full matched text
(Python: any(key in m.group() for key in self.map_csv.keys())). -/
def find_special_keys (map_csv : KeyMap) (text : String) :
    List SpecialMatch :=
  (raw_matches text).filter
    (fun m => map_csv.any (fun kv => py_in_str kv.1 m.group))

/-- The per-index walk of PiKVMWebsocket.send_input: when the current
index is the start of the next accepted match, send_key of the raw
captured word and skip the match's span; otherwise alphabetic,
whitespace and digit characters go through _send_standard_keys and all
others through _send_extra_key. -/
def send_input_go (map_csv map_shift_csv : KeyMap) :
    List SpecialMatch → Nat → List Char → List KeyEv
  | _, _, [] => []
  | [], idx, c :: rest =>
    (if pyIsAlphaChar c || pyIsSpaceChar c || pyIsDigitChar c then
       send_standard_keys_events c
     else send_extra_key_events map_csv map_shift_csv c) ++
    send_input_go map_csv map_shift_csv [] (idx + 1) rest
  | m :: ms, idx, c :: rest =>
    if m.start = idx then
      send_key_events m.word ++
      send_input_go map_csv map_shift_csv ms (idx + (m.stop - m.start))
        (rest.drop (m.stop - m.start - 1))
    else
      (if pyIsAlphaChar c || pyIsSpaceChar c || pyIsDigitChar c then
         send_standard_keys_events c
       else send_extra_key_events map_csv map_shift_csv c) ++
      send_input_go map_csv map_shift_csv (m :: ms) (idx + 1) rest
termination_by _ _ cs => cs.length
decreasing_by
  · simp
  · have := List.length_drop (m.stop - m.start - 1) rest
    simp [this]
    omega
  · simp

/-- PiKVMWebsocket.send_input: find the accepted special-key matches,
then walk the text character by character from index 0. -/
def send_input_events (map_csv map_shift_csv : KeyMap) (text : String) :
    List KeyEv :=
  send_input_go map_csv map_shift_csv (find_special_keys map_csv text) 0
    text.data

/-- PiKVMWebsocket.send_ctrl_alt_sup: the fixed literal sequence —
press ControlLeft, AltLeft, Delete, then release the same three keys in
the same order, a 50 ms sleep after every event. -/
def send_ctrl_alt_sup_acts : List Act :=
  [Act.send ⟨"ControlLeft", true⟩, Act.sleep 50,
   Act.send ⟨"AltLeft", true⟩, Act.sleep 50,
   Act.send ⟨"Delete", true⟩, Act.sleep 50,
   Act.send ⟨"ControlLeft", false⟩, Act.sleep 50,
   Act.send ⟨"AltLeft", false⟩, Act.sleep 50,
   Act.send ⟨"Delete", false⟩, Act.sleep 50]

/-- Outcome of one _send_with_retry call: the message was delivered,
the final transport error was re-raised, or the while loop body never
ran (max_retries = 0). -/
inductive SendOutcome where
  | delivered
  | raised
  | skipped
deriving DecidableEq, Repr

/-- Observable statistics of one _send_with_retry call: how many
ws.send attempts were made, how many stale-handle ws.close calls the
retry path issued, and how the call ended. -/
structure SendStats where
  sends : Nat
  closes : Nat
  outcome : SendOutcome
deriving DecidableEq, Repr

/-- The while loop of PiKVMWebsocket._send_with_retry under the
hypothesis that the liveness probe (_ensure_connection) and every
reconnect succeed; sendOk n decides whether the (n+1)-th ws.send
attempt succeeds.  The first argument is the remaining loop budget
max_retries - retries; a failed attempt whose increment reaches the
budget re-raises, any earlier failure sleeps, closes the stale handle,
reconnects and loops. -/
def send_with_retry_go (sendOk : Nat → Bool) : Nat → Nat → SendStats
  | 0, _ => ⟨0, 0, .skipped⟩
  | remaining + 1, attempt =>
    if sendOk attempt then ⟨1, 0, .delivered⟩
    else if remaining = 0 then ⟨1, 0, .raised⟩
    else
      let rest := send_with_retry_go sendOk remaining (attempt + 1)
      ⟨rest.sends + 1, rest.closes + 1, rest.outcome⟩

/-- PiKVMWebsocket._send_with_retry with retry budget max_retries. -/
def send_with_retry (sendOk : Nat → Bool) (max_retries : Nat) : SendStats :=
  send_with_retry_go sendOk max_retries 0

/-- Python dict assignment m[k] = v on an insertion-ordered
association list: overwrite in place or append. -/
def dict_insert (m : List (String × String)) (k v : String) :
    List (String × String) :=
  if (m.find? (fun p => p.1 == k)).isSome then
    m.map (fun p => if p.1 == k then (k, v) else p)
  else m ++ [(k, v)]

/-- The loop state of PiKVMWebsocket._map_csv: the dictionary built so
far and the current values of the Python locals key and value — none
while the name is still unbound.  The except-IndexError handler logs
an f-string that reads both locals, so it raises UnboundLocalError
whenever the needed name was never bound by an earlier row. -/
structure CsvSt where
  acc : List (String × String)
  keyBound : Option String
  valueBound : Option String
deriving DecidableEq, Repr

/-- One row of the _map_csv loop: a row with at least two columns binds
key and value and stores the pair; a shorter row raises IndexError,
whose handler evaluates the f-string over key and value and therefore
raises UnboundLocalError if either local is still unbound. -/
def map_csv_step (st : CsvSt) (row : List String) : Except String CsvSt :=
  match row with
  | k :: v :: _ => .ok ⟨dict_insert st.acc k v, some k, some v⟩
  | [k] =>
    if st.valueBound.isSome then .ok ⟨st.acc, some k, st.valueBound⟩
    else .error "UnboundLocalError: value"
  | [] =>
    if st.keyBound.isSome then
      if st.valueBound.isSome then .ok st
      else .error "UnboundLocalError: value"
    else .error "UnboundLocalError: key"

/-- Fold of map_csv_step over all CSV rows. -/
def map_csv_fold : List (List String) → CsvSt → Except String CsvSt
  | [], st => .ok st
  | r :: rs, st =>
    match map_csv_step st r with
    | .ok st' => map_csv_fold rs st'
    | .error e => .error e

/-- PiKVMWebsocket._map_csv on the parsed rows of a keymap resource:
the resulting keymap, or the uncaught error the loop raises. -/
def map_csv_load (rows : List (List String)) :
    Except String (List (String × String)) :=
  (map_csv_fold rows ⟨[], none, none⟩).map (·.acc)

/-- Python int() on a real value: truncation toward zero. -/
def py_int_trunc (q : Rat) : Int := if 0 ≤ q then ⌊q⌋ else ⌈q⌉

/-- Python round() on a real value: round half to even. -/
def py_round (q : Rat) : Int :=
  let f := ⌊q⌋
  let r := q - (f : Rat)
  if r < 1/2 then f
  else if 1/2 < r then f + 1
  else if f % 2 = 0 then f else f + 1

/-- PiKVMMouse._scale_mouse_xy_to_i16: per axis,
int((coord / dimension) * 0xFFFF - 0x8000), in exact arithmetic. -/
def scale_mouse_xy_to_i16 (screenx screeny width height : Int) :
    Int × Int :=
  (py_int_trunc ((screenx : Rat) / (width : Rat) * 65535 - 32768),
   py_int_trunc ((screeny : Rat) / (height : Rat) * 65535 - 32768))

/-- Modelled from the spec: the mouse scaling formula as section 6
words it — round((x/width)*65535 - 32768) per axis.  Stated only to be
compared against the source's scale_mouse_xy_to_i16. -/
def spec_scale_mouse_round (screenx screeny width height : Int) :
    Int × Int :=
  (py_round ((screenx : Rat) / (width : Rat) * 65535 - 32768),
   py_round ((screeny : Rat) / (height : Rat) * 65535 - 32768))

/-- The keycode chain a keyboard keyDown/keyUp call walks: the nested
shift keycodes first, the target's own keycode last.  keyDown emits
exactly this chain as presses and keyUp emits the same chain as
releases. -/
def keychain (M : KeyMaps) : Nat → String → Option (List String)
  | 0, _ => none
  | fuel + 1, key =>
    if requires_shift M.map_shift_csv key then
      (keychain M fuel "shift").map (· ++ [keycodeOf M key])
    else some [keycodeOf M key]

/-- The balanced-input invariant: every press event in the sequence is
followed, strictly later in the same sequence, by a release event of
the same keycode. -/
def pressMatched (evs : List KeyEv) : Prop :=
  ∀ pre k suf, evs = pre ++ KeyEv.mk k true :: suf → KeyEv.mk k false ∈ suf

/-- Executable check of the balanced-input invariant. -/
def pressMatchedB : List KeyEv → Bool
  | [] => true
  | e :: rest =>
    (!e.state || decide (KeyEv.mk e.key false ∈ rest)) && pressMatchedB rest

/-- Unshifted keymap fixture, mirroring the repository's unit tests. -/
def test_map_csv : KeyMap :=
  [("<enter>", "Enter"), ("<tab>", "Tab"), (",", "Comma"),
   ("<ArrowUp>", "ArrowUp")]

/-- Shift keymap fixture, mirroring the repository's unit tests. -/
def test_map_shift_csv : KeyMap :=
  [("_", "Minus"), ("\"", "Quote"), ("?", "Slash")]

/-- pyautogui alias keymap fixture, mirroring the unit tests. -/
def test_map_pyautogui : KeyMap :=
  [("enter", "Enter"), ("tab", "Tab"), ("shift", "ShiftLeft"),
   ("ctrl", "ControlLeft"), ("alt", "AltLeft"), ("delete", "Delete")]

/-- The combined fixture table set. -/
def testMaps : KeyMaps :=
  ⟨test_map_csv, test_map_shift_csv, test_map_pyautogui⟩

/-- Keymap with one name in both the unshifted and the shift map, and
an upper-case letter with an explicit unshifted entry. -/
def cx_map_csv : KeyMap := [("x", "UnshiftedX"), ("H", "CustomH")]

/-- Shift-map side of the shared-name keymap fixture. -/
def cx_map_shift : KeyMap := [("x", "ShiftedX")]

/-- The character sequence of a one-character string. -/
lemma char_toString_data (c : Char) : c.toString.data = [c] := rfl

/-- keyDown emits exactly the keychain as presses. -/
lemma keyDown_events_chain (M : KeyMaps) (fuel : Nat) (key : String) :
    keyDown_events M fuel key =
      (keychain M fuel key).map (List.map (fun k => KeyEv.mk k true)) := by
  induction fuel generalizing key with
  | zero => rfl
  | succ fuel ih =>
    rw [keyDown_events, keychain]
    by_cases h : requires_shift M.map_shift_csv key
    · rw [if_pos h, if_pos h, ih, Option.map_map, Option.map_map]
      rcases keychain M fuel "shift" with _ | l
      · rfl
      · simp
    · rw [if_neg h, if_neg h]
      rfl

/-- keyUp emits exactly the keychain as releases. -/
lemma keyUp_events_chain (M : KeyMaps) (fuel : Nat) (key : String) :
    keyUp_events M fuel key =
      (keychain M fuel key).map (List.map (fun k => KeyEv.mk k false)) := by
  induction fuel generalizing key with
  | zero => rfl
  | succ fuel ih =>
    rw [keyUp_events, keychain]
    by_cases h : requires_shift M.map_shift_csv key
    · rw [if_pos h, if_pos h, ih, Option.map_map, Option.map_map]
      rcases keychain M fuel "shift" with _ | l
      · rfl
      · simp
    · rw [if_neg h, if_neg h]
      rfl

/-- The empty sequence is balanced. -/
lemma pressMatched_nil : pressMatched [] := by
  intro pre k suf h
  exact absurd h (by simp)

/-- Balancedness is preserved by dropping the head. -/
lemma pressMatched_of_cons {e : KeyEv} {l : List KeyEv}
    (h : pressMatched (e :: l)) : pressMatched l := by
  intro pre k suf hl
  exact h (e :: pre) k suf (by simp [hl])

/-- A sequence whose presses are all answered in a balanced tail
is balanced. -/
lemma pressMatched_append_release (X Y : List KeyEv)
    (hY : pressMatched Y)
    (hX : ∀ k, KeyEv.mk k true ∈ X → KeyEv.mk k false ∈ Y) :
    pressMatched (X ++ Y) := by
  induction X with
  | nil => simpa using hY
  | cons x X ih =>
    intro pre k suf h
    cases pre with
    | nil =>
      simp only [List.nil_append, List.cons_append, List.cons.injEq] at h
      obtain ⟨rfl, rfl⟩ := h
      exact List.mem_append_right X (hX k (by simp))
    | cons p pre' =>
      simp only [List.cons_append, List.cons.injEq] at h
      exact ih (fun k hk => hX k (List.mem_cons_of_mem x hk)) pre' k suf h.2

/-- Concatenation of two balanced sequences is balanced. -/
lemma pressMatched_append_both (X Y : List KeyEv)
    (hX : pressMatched X) (hY : pressMatched Y) :
    pressMatched (X ++ Y) := by
  induction X with
  | nil => simpa using hY
  | cons x X ih =>
    intro pre k suf h
    cases pre with
    | nil =>
      simp only [List.nil_append, List.cons_append, List.cons.injEq] at h
      obtain ⟨rfl, rfl⟩ := h
      have := hX [] k X rfl
      exact List.mem_append_left Y this
    | cons p pre' =>
      simp only [List.cons_append, List.cons.injEq] at h
      exact ih (pressMatched_of_cons hX) pre' k suf h.2

/-- A sequence holding no press at all is balanced. -/
lemma pressMatched_of_no_press (l : List KeyEv)
    (h : ∀ e ∈ l, e.state = false) : pressMatched l := by
  intro pre k suf hl
  have : KeyEv.mk k true ∈ l := by
    rw [hl]
    exact List.mem_append_right pre (by simp)
  simpa using h _ this

/-- Soundness of the executable balancedness check. -/
lemma pressMatchedB_sound (l : List KeyEv) (h : pressMatchedB l = true) :
    pressMatched l := by
  induction l with
  | nil => exact pressMatched_nil
  | cons e rest ih =>
    rw [pressMatchedB, Bool.and_eq_true] at h
    intro pre k suf hl
    cases pre with
    | nil =>
      simp only [List.nil_append, List.cons.injEq] at hl
      obtain ⟨rfl, rfl⟩ := hl
      rcases Bool.or_eq_true _ _ |>.mp h.1 with h1 | h1
      · simp at h1
      · simpa using of_decide_eq_true h1
    | cons p pre' =>
      simp only [List.cons_append, List.cons.injEq] at hl
      exact ih h.2 pre' k suf hl.2

/-- Correctness of the executable list prefix test. -/
lemma list_prefixOf_iff (n h : List Char) :
    list_prefixOf n h = true ↔ n <+: h := by
  induction n generalizing h with
  | nil => simp [list_prefixOf]
  | cons a as ih =>
    cases h with
    | nil => simp [list_prefixOf]
    | cons b bs =>
      rw [list_prefixOf, Bool.and_eq_true, beq_iff_eq, ih,
        List.cons_prefix_cons]

/-- Correctness of the executable substring test. -/
lemma list_infixOf_iff (n h : List Char) :
    list_infixOf n h = true ↔ n <:+: h := by
  induction h with
  | nil =>
    rw [list_infixOf, List.isEmpty_iff, List.infix_nil]
  | cons c rest ih =>
    rw [list_infixOf, Bool.or_eq_true, list_prefixOf_iff, ih,
      List.infix_cons_iff]

/-- Every element of a successfully sequenced list came from the input
list of options. -/
lemma seqOpt_mem {α : Type} {os : List (Option α)} {xs : List α}
    (h : seqOpt os = some xs) : ∀ x ∈ xs, some x ∈ os := by
  induction os generalizing xs with
  | nil =>
    rw [seqOpt] at h
    cases h
    simp
  | cons o os ih =>
    rcases o with _ | a
    · rw [seqOpt] at h
      cases h
    rw [seqOpt] at h
    rcases ho : seqOpt os with _ | rest
    · rw [ho] at h; cases h
    · rw [ho] at h
      cases h
      intro x hx
      rcases List.mem_cons.mp hx with rfl | hx
      · exact List.mem_cons_self _ _
      · exact List.mem_cons_of_mem _ (ih ho x hx)

/-- Every option of a successfully sequenced list contributes a result
element. -/
lemma seqOpt_forall {α : Type} {os : List (Option α)} {xs : List α}
    (h : seqOpt os = some xs) : ∀ o ∈ os, ∃ x ∈ xs, o = some x := by
  induction os generalizing xs with
  | nil => simp
  | cons o os ih =>
    rcases o with _ | a
    · rw [seqOpt] at h
      cases h
    rw [seqOpt] at h
    rcases ho : seqOpt os with _ | rest
    · rw [ho] at h; cases h
    · rw [ho] at h
      cases h
      intro o' ho'
      rcases List.mem_cons.mp ho' with rfl | ho'
      · exact ⟨a, by simp⟩
      · obtain ⟨x, hx, hox⟩ := ih ho o' ho'
        exact ⟨x, List.mem_cons_of_mem _ hx, hox⟩

/-- Event projection distributes over action concatenation. -/
lemma acts_events_append (xs ys : List Act) :
    acts_events (xs ++ ys) = acts_events xs ++ acts_events ys := by
  simp [acts_events]

/-- Event projection of a pure send block. -/
lemma acts_events_map_send (evs : List KeyEv) :
    acts_events (evs.map Act.send) = evs := by
  induction evs with
  | nil => rfl
  | cons e evs ih => simp [acts_events] at ih ⊢; exact ih

/-- Event projection of one sleep. -/
lemma acts_events_sleep (ms : Nat) : acts_events [Act.sleep ms] = [] := rfl

/-- Event projection over flattened per-key blocks of sends followed by
a sleep: the sleeps vanish. -/
lemma acts_events_blocks (ds : List (List KeyEv)) :
    acts_events ((ds.map
      (fun d => d.map Act.send ++ [Act.sleep 50])).flatten) = ds.flatten := by
  induction ds with
  | nil => rfl
  | cons d ds ih =>
    simp only [List.map_cons, List.flatten_cons, acts_events_append,
      acts_events_map_send, acts_events_sleep, List.append_nil, ih]

/-- One send_key call is balanced. -/
lemma pm_send_key (k : String) : pressMatched (send_key_events k) :=
  pressMatchedB_sound _ (by simp [pressMatchedB, send_key_events])

/-- One shift-wrapped tap is balanced. -/
lemma pm_send_shift_key (k : String) :
    pressMatched (send_shift_key_events k) :=
  pressMatchedB_sound _
    (by simp [pressMatchedB, send_shift_key_events, send_key_events])

/-- One standard-character dispatch is balanced. -/
lemma pm_send_standard (c : Char) :
    pressMatched (send_standard_keys_events c) := by
  rw [send_standard_keys_events]
  split
  · exact pm_send_shift_key _
  split
  · exact pm_send_key _
  split
  · exact pm_send_key _
  · exact pm_send_key _

/-- One extra-character dispatch is balanced. -/
lemma pm_send_extra (mc msf : KeyMap) (c : Char) :
    pressMatched (send_extra_key_events mc msf c) := by
  rw [send_extra_key_events]
  rcases findKey mc c.toString with _ | v
  · apply pressMatched_append_both
    · split
      · exact pm_send_shift_key _
      · exact pressMatched_nil
    · rcases findKey msf c.toString with _ | v
      · exact pressMatched_nil
      · exact pm_send_shift_key _
  · exact pm_send_key _

/-- The whole send_input walk is balanced, for every keymap pair, match
list, start index and character list (strong induction on the length
of the remaining character list). -/
lemma pm_send_input_go_bounded (mc msf : KeyMap) :
    ∀ n ms idx cs, List.length cs ≤ n →
      pressMatched (send_input_go mc msf ms idx cs) := by
  intro n
  induction n with
  | zero =>
    intro ms idx cs hcs
    have : cs = [] := List.length_eq_zero.mp (Nat.le_zero.mp hcs)
    subst this
    rw [send_input_go]
    exact pressMatched_nil
  | succ n ih =>
    intro ms idx cs hcs
    match ms, cs with
    | _, [] =>
      rw [send_input_go]
      exact pressMatched_nil
    | [], c :: rest =>
      rw [send_input_go]
      apply pressMatched_append_both
      · split
        · exact pm_send_standard _
        · exact pm_send_extra _ _ _
      · exact ih [] (idx + 1) rest (by simp at hcs; omega)
    | m :: ms', c :: rest =>
      rw [send_input_go]
      split
      · apply pressMatched_append_both
        · exact pm_send_key _
        · apply ih ms' (idx + (m.stop - m.start))
          simp only [List.length_drop]
          simp at hcs
          omega
      · apply pressMatched_append_both
        · split
          · exact pm_send_standard _
          · exact pm_send_extra _ _ _
        · exact ih (m :: ms') (idx + 1) rest (by simp at hcs; omega)

/-- The whole send_input walk is balanced. -/
lemma pm_send_input_go (mc msf : KeyMap) (ms : List SpecialMatch)
    (idx : Nat) (cs : List Char) :
    pressMatched (send_input_go mc msf ms idx cs) :=
  pm_send_input_go_bounded mc msf cs.length ms idx cs le_rfl

/-- Floor of an integer quotient over the rationals is integer
(Euclidean) division. -/
lemma floor_intCast_div_intCast (a b : Int) (hb : 0 < b) :
    ⌊(a : Rat) / (b : Rat)⌋ = a / b := by
  obtain ⟨n, rfl⟩ : ∃ n : ℕ, (n : ℤ) = b := ⟨b.toNat, Int.toNat_of_nonneg hb.le⟩
  rw [show (((n : ℤ)) : Rat) = (n : Rat) by push_cast; ring]
  exact Rat.floor_intCast_div_natCast a n

/-- Python int() of an integer quotient is truncating division. -/
lemma trunc_intCast_div (a b : Int) (hb : 0 < b) :
    py_int_trunc ((a : Rat) / (b : Rat)) = a.tdiv b := by
  have hbR : (0 : Rat) < (b : Rat) := by exact_mod_cast hb
  rcases le_or_lt 0 a with ha | ha
  · have hq : (0 : Rat) ≤ (a : Rat) / (b : Rat) :=
      div_nonneg (by exact_mod_cast ha) hbR.le
    rw [py_int_trunc, if_pos hq, floor_intCast_div_intCast a b hb,
      Int.tdiv_eq_ediv ha hb.le]
  · have hq : (a : Rat) / (b : Rat) < 0 :=
      div_neg_of_neg_of_pos (by exact_mod_cast ha) hbR
    rw [py_int_trunc, if_neg (not_le.mpr hq)]
    have h1 : ((a : Rat) / (b : Rat)) = -(((-a : Int) : Rat) / (b : Rat)) := by
      push_cast
      ring
    rw [h1, Int.ceil_neg, floor_intCast_div_intCast (-a) b hb,
      ← Int.tdiv_eq_ediv (by omega) hb.le, Int.neg_tdiv, neg_neg]

/-- Closed form of one axis of the mouse scaling. -/
lemma scale_axis (x w : Int) (hw : 0 < w) :
    py_int_trunc ((x : Rat) / (w : Rat) * 65535 - 32768) =
      (65535 * x - 32768 * w).tdiv w := by
  have hw' : ((w : Rat)) ≠ 0 := by
    have h0 : (0 : Rat) < (w : Rat) := by exact_mod_cast hw
    exact h0.ne'
  have h1 : (x : Rat) / (w : Rat) * 65535 - 32768 =
      ((65535 * x - 32768 * w : Int) : Rat) / (w : Rat) := by
    field_simp
    ring
  rw [h1, trunc_intCast_div _ _ hw]

/-- C4, counterexample: at screen point (1, 0) on a 1920x1080 frame the
code's int() truncation yields x = -32733 while the claimed round()
formula yields x = -32734, so _scale_mouse_xy_to_i16 does not equal the
rounding formula. -/
theorem C4_counterexample :
    scale_mouse_xy_to_i16 1 0 1920 1080 = (-32733, -32768) ∧
    spec_scale_mouse_round 1 0 1920 1080 = (-32734, -32768) ∧
    scale_mouse_xy_to_i16 1 0 1920 1080 ≠
      spec_scale_mouse_round 1 0 1920 1080 := by
  have hA : scale_mouse_xy_to_i16 1 0 1920 1080 = (-32733, -32768) := by
    rw [scale_mouse_xy_to_i16, Prod.mk.injEq]
    constructor
    · rw [py_int_trunc, if_neg (by push_cast; norm_num),
        show ((1 : Int) : Rat) / ((1920 : Int) : Rat) * 65535 - 32768 =
          -(4189935 / 128) by push_cast; norm_num,
        Int.ceil_neg]
      norm_num
    · rw [py_int_trunc, if_neg (by push_cast; norm_num),
        show ((0 : Int) : Rat) / ((1080 : Int) : Rat) * 65535 - 32768 =
          -(32768 : Rat) by push_cast; norm_num,
        Int.ceil_neg]
      norm_num
  have hB : spec_scale_mouse_round 1 0 1920 1080 = (-32734, -32768) := by
    rw [spec_scale_mouse_round, Prod.mk.injEq]
    constructor
    · rw [show ((1 : Int) : Rat) / ((1920 : Int) : Rat) * 65535 - 32768 =
          -(4189935 / 128) by push_cast; norm_num]
      have hf : ⌊-(4189935 / 128 : Rat)⌋ = -32734 := by
        rw [Int.floor_eq_iff]
        constructor <;> norm_num
      simp only [py_round, hf]
      norm_num
    · rw [show ((0 : Int) : Rat) / ((1080 : Int) : Rat) * 65535 - 32768 =
          -(32768 : Rat) by push_cast; norm_num]
      have hf : ⌊-(32768 : Rat)⌋ = -32768 := by
        rw [Int.floor_eq_iff]
        constructor <;> norm_num
      simp only [py_round, hf]
      norm_num
  refine ⟨hA, hB, ?_⟩
  rw [hA, hB]
  decide

/-- C4, amended: for positive frame dimensions,
_scale_mouse_xy_to_i16(x, y, width, height) equals truncation toward
zero (Python int()) of (coord/dimension)*65535 - 32768 per axis, i.e.
(65535*x - 32768*width) tdiv width and (65535*y - 32768*height) tdiv
height — not the round() of the claim. -/
theorem C4_amended_trunc_formula (x y w h : Int) (hw : 0 < w)
    (hh : 0 < h) :
    scale_mouse_xy_to_i16 x y w h =
      ((65535 * x - 32768 * w).tdiv w, (65535 * y - 32768 * h).tdiv h) := by
  rw [scale_mouse_xy_to_i16, scale_axis x w hw, scale_axis y h hh]

/-- C4, witness: the amended formula applied at (1, 0) on 1920x1080. -/
theorem C4_witness :
    (0 : Int) < 1920 ∧ (0 : Int) < 1080 ∧
    scale_mouse_xy_to_i16 1 0 1920 1080 =
      ((65535 * 1 - 32768 * 1920 : Int).tdiv 1920,
       (65535 * 0 - 32768 * 1080 : Int).tdiv 1080) :=
  ⟨by decide, by decide,
   C4_amended_trunc_formula 1 0 1920 1080 (by decide) (by decide)⟩

/-- C1, counterexample: with the unit-test keymaps, keyUp("A") sends
the ShiftLeft release BEFORE the KeyA release — not the claimed
target-release-then-shift-release nesting. -/
theorem C1_counterexample :
    keyUp_events testMaps 2 "A" =
      some [⟨"ShiftLeft", false⟩, ⟨"KeyA", false⟩] ∧
    keyUp_events testMaps 2 "A" ≠
      some [⟨"KeyA", false⟩, ⟨"ShiftLeft", false⟩] := by
  constructor
  · rfl
  · decide

/-- C1, amended: for every key the resolver reports as needing shift
(when "shift" itself does not), keyDown(key) emits the shift press
before the target press, and keyUp(key) likewise emits the shift
release before the target release — the release half mirrors the press
half instead of nesting around it. -/
theorem C1_amended_shift_first (M : KeyMaps) (key : String)
    (h1 : requires_shift M.map_shift_csv key = true)
    (h2 : requires_shift M.map_shift_csv "shift" = false) :
    keyDown_events M 2 key =
      some [⟨keycodeOf M "shift", true⟩, ⟨keycodeOf M key, true⟩] ∧
    keyUp_events M 2 key =
      some [⟨keycodeOf M "shift", false⟩, ⟨keycodeOf M key, false⟩] := by
  constructor <;>
    simp [keyDown_events, keyUp_events, h1, h2]

/-- C1, witness: the amended order at the fixture maps and key "A". -/
theorem C1_witness :
    requires_shift testMaps.map_shift_csv "A" = true ∧
    requires_shift testMaps.map_shift_csv "shift" = false ∧
    keyDown_events testMaps 2 "A" =
      some [⟨"ShiftLeft", true⟩, ⟨"KeyA", true⟩] ∧
    keyUp_events testMaps 2 "A" =
      some [⟨"ShiftLeft", false⟩, ⟨"KeyA", false⟩] := by
  refine ⟨by decide, by decide, ?_, ?_⟩
  · rw [(C1_amended_shift_first testMaps "A" (by decide) (by decide)).1]
    rfl
  · rw [(C1_amended_shift_first testMaps "A" (by decide) (by decide)).2]
    rfl

/-- Facts about a one-character string built from an upper-case ASCII
letter, as needed to push it through the resolver's fallback chain. -/
lemma upperChar_facts (c : Char) (hc : pyIsUpperChar c = true) :
    pyIsUpper c.toString = true ∧
    pyIsDigitStr c.toString = false ∧
    pyIsSpaceStr c.toString = false ∧
    (c.toString == "\"") = false ∧
    str_contains_char c.toString '<' = false ∧
    str_contains_char c.toString '>' = false ∧
    pyToUpper c.toString = c.toString := by
  have h1 : 65 ≤ c.toNat ∧ c.toNat ≤ 90 := by
    simpa [pyIsUpperChar] using hc
  have hlow : pyIsLowerChar c = false := by
    simp only [pyIsLowerChar, Bool.and_eq_false_iff]
    left
    simp only [decide_eq_false_iff_not, not_le]
    omega
  have hdig : pyIsDigitChar c = false := by
    simp only [pyIsDigitChar, Bool.and_eq_false_iff]
    right
    simp only [decide_eq_false_iff_not, not_le]
    omega
  have hspace : pyIsSpaceChar c = false := by
    simp only [pyIsSpaceChar, Bool.or_eq_false_iff, beq_eq_false_iff_ne,
      ne_eq]
    omega
  have hql : ('"' = c) → False := by
    intro he
    rw [← he] at h1
    revert h1
    decide
  have hltc : ('<' == c) = false := by
    rw [beq_eq_false_iff_ne]
    intro he
    rw [← he] at h1
    revert h1
    decide
  have hgtc : ('>' == c) = false := by
    rw [beq_eq_false_iff_ne]
    intro he
    rw [← he] at h1
    revert h1
    decide
  refine ⟨?_, ?_, ?_, ?_, ?_, ?_, ?_⟩
  · simp [pyIsUpper, char_toString_data, hlow, hc]
  · simp [pyIsDigitStr, char_toString_data, hdig]
  · simp [pyIsSpaceStr, char_toString_data, hspace]
  · rw [beq_eq_false_iff_ne]
    intro he
    have hd : c.toString.data = ("\"" : String).data := by rw [he]
    rw [char_toString_data, show ("\"" : String).data = ['"'] from rfl] at hd
    exact hql (List.cons.injEq _ _ _ _ ▸ hd).1.symm
  · simp only [str_contains_char, char_toString_data, List.contains,
      List.elem, hltc]
  · simp only [str_contains_char, char_toString_data, List.contains,
      List.elem, hgtc]
  · simp only [pyToUpper, char_toString_data, List.map_cons, List.map_nil,
      pyToUpperChar, hlow, Bool.false_eq_true, if_false]
    rfl

/-- C2, counterexample: with the name "x" present in both maps, the
resolver returns the UNSHIFTED map's keycode (not the shift map's),
while shift is still reported; and an upper-case letter with an
explicit unshifted entry resolves to that entry, not to Key&lt;UPPER&gt;. -/
theorem C2_counterexample :
    key_to_keycode cx_map_csv cx_map_shift [] "x" = "UnshiftedX" ∧
    findKey cx_map_shift "x" = some "ShiftedX" ∧
    ("UnshiftedX" : String) ≠ "ShiftedX" ∧
    requires_shift cx_map_shift "x" = true ∧
    key_to_keycode cx_map_csv cx_map_shift [] "H" = "CustomH" ∧
    ("CustomH" : String) ≠ "KeyH" := by
  refine ⟨rfl, rfl, by decide, rfl, rfl, by decide⟩

/-- C2, amended: resolution checks the UNSHIFTED map before the shift
map, so a name present in both maps resolves to the unshifted map's
keycode while _requires_shift still reports that shift is needed; and
an upper-case alphabetic character resolves to Key&lt;UPPER&gt; only through
the final fallback, i.e. when it is absent (raw and bracketed) from
all three maps — not "regardless of map contents". -/
theorem C2_amended_resolution_order :
    (∀ (mc ms al : KeyMap) (key vU vS : String),
      findKey mc key = some vU → findKey ms key = some vS →
      key_to_keycode mc ms al key = vU ∧
      requires_shift ms key = true) ∧
    (∀ (mc ms al : KeyMap) (c : Char),
      pyIsUpperChar c = true →
      findKey mc c.toString = none →
      findKey mc ("<" ++ c.toString ++ ">") = none →
      findKey ms c.toString = none →
      findKey ms ("<" ++ c.toString ++ ">") = none →
      findKey al c.toString = none →
      key_to_keycode mc ms al c.toString = "Key" ++ c.toString ∧
      requires_shift ms c.toString = true) := by
  constructor
  · intro mc ms al key vU vS h1 h2
    constructor
    · simp [key_to_keycode, h1]
    · simp [requires_shift, h2]
  · intro mc ms al c hc h2 h3 h4 h5 h6
    obtain ⟨hU, hD, hS, hQ, hL, hG, hToUp⟩ := upperChar_facts c hc
    constructor
    · simp only [key_to_keycode, hL, hG, Bool.not_false, Bool.and_self,
        if_true, h2, h3, h4, h5, h6, hD, hS, hQ, hToUp,
        Bool.false_eq_true, if_false]
    · simp [requires_shift, hU]

/-- C2, witness: the amended resolution at the shared-name fixture and
at the upper-case letter H with empty maps. -/
theorem C2_witness :
    (key_to_keycode cx_map_csv cx_map_shift [] "x" = "UnshiftedX" ∧
     requires_shift cx_map_shift "x" = true) ∧
    (key_to_keycode [] [] [] "H" = "Key" ++ "H" ∧
     requires_shift [] "H" = true) := by
  constructor
  · exact C2_amended_resolution_order.1 cx_map_csv cx_map_shift []
      "x" "UnshiftedX" "ShiftedX" rfl rfl
  · exact C2_amended_resolution_order.2 [] [] [] 'H' (by decide)
      rfl rfl rfl rfl rfl

/-- The raw matches of the one-token text used by the C3 analysis. -/
lemma raw_matches_notakey :
    raw_matches "<notakey>" = [⟨0, 9, "notakey"⟩] := by
  rw [raw_matches, show ("<notakey>" : String).data =
    ['<', 'n', 'o', 't', 'a', 'k', 'e', 'y', '>'] from rfl]
  simp [raw_matches_aux, List.takeWhile, List.dropWhile, isWordChar,
    pyIsAlphaChar, pyIsUpperChar, pyIsLowerChar, pyIsDigitChar]

/-- The raw matches of the bracketed ArrowUp token. -/
lemma raw_matches_ArrowUp :
    raw_matches "<ArrowUp>" = [⟨0, 9, "ArrowUp"⟩] := by
  rw [raw_matches, show ("<ArrowUp>" : String).data =
    ['<', 'A', 'r', 'r', 'o', 'w', 'U', 'p', '>'] from rfl]
  simp [raw_matches_aux, List.takeWhile, List.dropWhile, isWordChar,
    pyIsAlphaChar, pyIsUpperChar, pyIsLowerChar, pyIsDigitChar]

/-- C3, counterexample: with unshifted keymap {"a": "KeyA"}, the
candidate "&lt;notakey&gt;" IS accepted as a special token (the key "a" is a
substring of the bracketed text) although "notakey" is absent from the
map in both raw and bracketed form — the claim predicts zero tokens. -/
theorem C3_counterexample :
    find_special_keys [("a", "KeyA")] "<notakey>" = [⟨0, 9, "notakey"⟩] ∧
    findKey [("a", "KeyA")] "notakey" = none ∧
    findKey [("a", "KeyA")] "<notakey>" = none := by
  refine ⟨?_, rfl, rfl⟩
  rw [find_special_keys, raw_matches_notakey]
  decide

/-- C3, amended: a raw "&lt;word&gt;" candidate is accepted iff SOME key of
the unshifted map occurs as a substring of the full bracketed text; in
particular a candidate whose name exists as a key (raw or bracketed) is
always accepted, but so are candidates like "&lt;notakey&gt;" whenever any
map key happens to occur inside them. -/
theorem C3_amended_substring_filter :
    (∀ (mc : KeyMap) (text : String) (m : SpecialMatch),
      m ∈ find_special_keys mc text ↔
        m ∈ raw_matches text ∧ ∃ kv ∈ mc, kv.1.data <:+: m.group.data) ∧
    (∀ (mc : KeyMap) (text : String) (m : SpecialMatch),
      m ∈ raw_matches text →
      (findKey mc m.word).isSome ∨ (findKey mc m.group).isSome →
      m ∈ find_special_keys mc text) := by
  have hmem : ∀ (mc : KeyMap) (text : String) (m : SpecialMatch),
      m ∈ find_special_keys mc text ↔
        m ∈ raw_matches text ∧ ∃ kv ∈ mc, kv.1.data <:+: m.group.data := by
    intro mc text m
    rw [find_special_keys, List.mem_filter, List.any_eq_true]
    simp only [py_in_str, list_infixOf_iff]
  refine ⟨hmem, ?_⟩
  intro mc text m hm hkey
  rw [hmem]
  refine ⟨hm, ?_⟩
  rcases hkey with h | h
  · obtain ⟨kv, hfind⟩ : ∃ kv, mc.find? (fun p => p.1 == m.word) = some kv := by
      rcases hf : mc.find? (fun p => p.1 == m.word) with _ | kv
      · rw [findKey, hf] at h
        simp at h
      · exact ⟨kv, hf⟩
    have hmm := List.mem_of_find?_eq_some hfind
    have hp : kv.1 = m.word := by
      have := List.find?_some hfind
      simpa using this
    refine ⟨kv, hmm, ?_⟩
    rw [hp]
    refine ⟨['<'], ['>'], ?_⟩
    simp [SpecialMatch.group, String.data_append]
  · obtain ⟨kv, hfind⟩ : ∃ kv, mc.find? (fun p => p.1 == m.group) = some kv := by
      rcases hf : mc.find? (fun p => p.1 == m.group) with _ | kv
      · rw [findKey, hf] at h
        simp at h
      · exact ⟨kv, hf⟩
    have hmm := List.mem_of_find?_eq_some hfind
    have hp : kv.1 = m.group := by
      have := List.find?_some hfind
      simpa using this
    refine ⟨kv, hmm, ?_⟩
    rw [hp]

/-- C3, witness: the known bracketed key ArrowUp is accepted as a
token over its full span. -/
theorem C3_witness :
    (⟨0, 9, "ArrowUp"⟩ : SpecialMatch) ∈
      find_special_keys [("<ArrowUp>", "ArrowUp")] "<ArrowUp>" := by
  apply C3_amended_substring_filter.2 [("<ArrowUp>", "ArrowUp")]
    "<ArrowUp>" ⟨0, 9, "ArrowUp"⟩
  · rw [raw_matches_ArrowUp]
    simp
  · right
    rfl

/-- When every send fails, the retry loop makes one attempt per unit of
remaining budget, closes the handle after each non-final failure, and
ends by re-raising. -/
lemma send_with_retry_go_all_fail (r a : Nat) :
    send_with_retry_go (fun _ => false) (r + 1) a = ⟨r + 1, r, .raised⟩ := by
  induction r generalizing a with
  | zero => rfl
  | succ r ih =>
    rw [send_with_retry_go]
    simp only [Bool.false_eq_true, if_false]
    rw [if_neg (Nat.succ_ne_zero r), ih (a + 1)]

/-- C5: with a liveness probe that always succeeds, (i) a transport
whose sends all fail makes exactly max_retries send attempts and
max_retries - 1 stale-handle close calls and then re-raises; (ii) a
transport failing only the first send delivers on the second attempt
after exactly one close call, raising nothing. -/
theorem C5_send_with_retry_counts (m : Nat) (hm : 1 ≤ m) :
    send_with_retry (fun _ => false) m = ⟨m, m - 1, .raised⟩ ∧
    (2 ≤ m →
      send_with_retry (fun n => n == 1) m = ⟨2, 1, .delivered⟩) := by
  constructor
  · obtain ⟨r, rfl⟩ : ∃ r, r + 1 = m := ⟨m - 1, by omega⟩
    rw [send_with_retry, send_with_retry_go_all_fail]
    simp
  · intro h2
    obtain ⟨k, rfl⟩ : ∃ k, k + 2 = m := ⟨m - 2, by omega⟩
    rw [send_with_retry, send_with_retry_go]
    simp only [Nat.succ_ne_zero, if_false, show ((0 : Nat) == 1) = false
      from rfl, Bool.false_eq_true, if_false]
    rw [send_with_retry_go]
    simp [send_with_retry_go]

/-- C5, witness: the retry counts at the default budget of 3. -/
theorem C5_witness :
    1 ≤ 3 ∧ (2 : Nat) ≤ 3 ∧
    send_with_retry (fun _ => false) 3 = ⟨3, 2, .raised⟩ ∧
    send_with_retry (fun n => n == 1) 3 = ⟨2, 1, .delivered⟩ :=
  ⟨by decide, by decide, (C5_send_with_retry_counts 3 (by decide)).1,
   (C5_send_with_retry_counts 3 (by decide)).2 (by decide)⟩

/-- C6: for every keymap pair, send_input("H2") emits exactly six key
events, in order: ShiftLeft press, KeyH press, KeyH release, ShiftLeft
release, Digit2 press, Digit2 release. -/
theorem C6_send_input_H2 (mc msf : KeyMap) :
    send_input_events mc msf "H2" =
      [⟨"ShiftLeft", true⟩, ⟨"KeyH", true⟩, ⟨"KeyH", false⟩,
       ⟨"ShiftLeft", false⟩, ⟨"Digit2", true⟩, ⟨"Digit2", false⟩] := by
  have hraw : raw_matches "H2" = [] := by
    rw [raw_matches, show ("H2" : String).data = ['H', '2'] from rfl]
    simp [raw_matches_aux]
  rw [send_input_events, find_special_keys, hraw,
    show ("H2" : String).data = ['H', '2'] from rfl]
  simp only [List.filter_nil]
  simp only [send_input_go, pyIsAlphaChar, pyIsUpperChar, pyIsLowerChar,
    pyIsDigitChar, pyIsSpaceChar, show 'H'.toNat = 72 from rfl,
    show '2'.toNat = 50 from rfl]
  norm_num
  decide

/-- C10: when the double-quote character is absent from the unshifted
map but mapped in the shift map, send_input on the one-character string
double-quote emits two complete shift-wrapped taps — first the
hard-coded Quote, then the shift map's value — eight key events. -/
theorem C10_double_quote_two_taps (mc msf : KeyMap) (v : String)
    (h1 : findKey mc "\"" = none) (h2 : findKey msf "\"" = some v) :
    send_input_events mc msf "\"" =
      [⟨"ShiftLeft", true⟩, ⟨"Quote", true⟩, ⟨"Quote", false⟩,
       ⟨"ShiftLeft", false⟩,
       ⟨"ShiftLeft", true⟩, ⟨v, true⟩, ⟨v, false⟩,
       ⟨"ShiftLeft", false⟩] := by
  have hraw : raw_matches "\"" = [] := by
    rw [raw_matches, show ("\"" : String).data = ['"'] from rfl]
    simp [raw_matches_aux]
  rw [send_input_events, find_special_keys, hraw,
    show ("\"" : String).data = ['"'] from rfl]
  simp only [List.filter_nil]
  simp only [send_input_go, pyIsAlphaChar, pyIsUpperChar, pyIsLowerChar,
    pyIsDigitChar, pyIsSpaceChar, show '"'.toNat = 34 from rfl]
  norm_num
  rw [send_extra_key_events, show ('"'.toString) = "\"" from rfl, h1, h2]
  simp [send_shift_key_events, send_key_events]

/-- C10, witness: with the fixture maps, where the double-quote maps to
Quote in the shift map, the eight events appear concretely. -/
theorem C10_witness :
    send_input_events test_map_csv test_map_shift_csv "\"" =
      [⟨"ShiftLeft", true⟩, ⟨"Quote", true⟩, ⟨"Quote", false⟩,
       ⟨"ShiftLeft", false⟩,
       ⟨"ShiftLeft", true⟩, ⟨"Quote", true⟩, ⟨"Quote", false⟩,
       ⟨"ShiftLeft", false⟩] :=
  C10_double_quote_two_taps test_map_csv test_map_shift_csv "Quote" rfl rfl

/-- C7: the claim fails — _map_csv's except-IndexError handler logs an
f-string reading the locals key and value, which are unbound when the
FIRST row is the malformed one, so loading raises UnboundLocalError
there; a malformed row after a well-formed one is logged (with stale
values) and skipped as the claim describes. -/
theorem C7_map_csv_malformed_first_row :
    map_csv_load [["x"], ["a", "b"]] = .error "UnboundLocalError: value" ∧
    map_csv_load [["a", "b"], ["x"], ["c", "d"]] =
      .ok [("a", "b"), ("c", "d")] := by
  constructor
  · rfl
  · rfl

/-- C8: send_ctrl_alt_sup presses ControlLeft, AltLeft, Delete and then
releases the SAME three keys in the same order, a 50 ms sleep after
each of the six events; hotkey instead releases in reverse of press
order. -/
theorem C8_ctrl_alt_sup_same_order :
    send_ctrl_alt_sup_acts =
      (([⟨"ControlLeft", true⟩, ⟨"AltLeft", true⟩, ⟨"Delete", true⟩,
         ⟨"ControlLeft", false⟩, ⟨"AltLeft", false⟩, ⟨"Delete", false⟩] :
          List KeyEv).map (fun e => [Act.send e, Act.sleep 50])).flatten ∧
    acts_events send_ctrl_alt_sup_acts =
      (["ControlLeft", "AltLeft", "Delete"].map
        (fun k => KeyEv.mk k true)) ++
      (["ControlLeft", "AltLeft", "Delete"].map
        (fun k => KeyEv.mk k false)) ∧
    (∀ (M : KeyMaps) (fuel : Nat) (k1 k2 k3 : String)
       (d1 d2 d3 u1 u2 u3 : List KeyEv),
      keyDown_events M fuel k1 = some d1 →
      keyDown_events M fuel k2 = some d2 →
      keyDown_events M fuel k3 = some d3 →
      keyUp_events M fuel k1 = some u1 →
      keyUp_events M fuel k2 = some u2 →
      keyUp_events M fuel k3 = some u3 →
      hotkey_events M fuel [k1, k2, k3] =
        some (d1 ++ d2 ++ d3 ++ (u3 ++ u2 ++ u1))) := by
  refine ⟨by decide, by decide, ?_⟩
  intro M fuel k1 k2 k3 d1 d2 d3 u1 u2 u3 h1 h2 h3 h4 h5 h6
  rw [hotkey_events, hotkey_acts]
  simp only [List.map_cons, List.map_nil, List.reverse_cons,
    List.reverse_nil, List.nil_append, List.append_nil, List.cons_append,
    h1, h2, h3, h4, h5, h6, seqOpt, Option.map_some']
  simp only [Option.bind_eq_bind, Option.some_bind, Option.pure_def,
    Option.map_some', Option.some.injEq]
  rw [acts_events_append, acts_events_blocks, acts_events_blocks]
  simp [List.append_assoc]

/-- C8, witness: hotkey("ctrl","alt","delete") on the fixture maps
releases in reverse order, unlike the fixed chord. -/
theorem C8_witness :
    hotkey_events testMaps 2 ["ctrl", "alt", "delete"] =
      some [⟨"ControlLeft", true⟩, ⟨"AltLeft", true⟩, ⟨"Delete", true⟩,
            ⟨"Delete", false⟩, ⟨"AltLeft", false⟩,
            ⟨"ControlLeft", false⟩] := by
  have h := C8_ctrl_alt_sup_same_order.2.2 testMaps 2
    "ctrl" "alt" "delete"
    [⟨"ControlLeft", true⟩] [⟨"AltLeft", true⟩] [⟨"Delete", true⟩]
    [⟨"ControlLeft", false⟩] [⟨"AltLeft", false⟩] [⟨"Delete", false⟩]
    rfl rfl rfl rfl rfl rfl
  simpa using h

/-- A chain of presses followed by the same chain of releases is
balanced. -/
lemma pm_press_release_chain (K : List String) :
    pressMatched (K.map (fun k => KeyEv.mk k true) ++
                  K.map (fun k => KeyEv.mk k false)) := by
  apply pressMatched_append_release
  · apply pressMatched_of_no_press
    intro e he
    simp only [List.mem_map] at he
    obtain ⟨k, _, rfl⟩ := he
    rfl
  · intro k hk
    simp only [List.mem_map, KeyEv.mk.injEq] at hk ⊢
    obtain ⟨k', hk', hkeq, _⟩ := hk
    exact ⟨k, hkeq ▸ hk', rfl, trivial⟩

/-- C9: each of send_key, keyboard press, keyboard hotkey,
send_ctrl_alt_sup and send_input emits a sequence in which every press
is followed later by a release of the same keycode (the raw
half-operations are exactly the ones exempted by the claim and emit a
single unmatched half by construction). -/
theorem C9_press_release_balanced :
    (∀ k, pressMatched (send_key_events k)) ∧
    (∀ (M : KeyMaps) (fuel : Nat) (key : String) (evs : List KeyEv),
      press_events M fuel key = some evs → pressMatched evs) ∧
    (∀ (M : KeyMaps) (fuel : Nat) (keys : List String) (evs : List KeyEv),
      hotkey_events M fuel keys = some evs → pressMatched evs) ∧
    pressMatched (acts_events send_ctrl_alt_sup_acts) ∧
    (∀ (mc msf : KeyMap) (text : String),
      pressMatched (send_input_events mc msf text)) := by
  refine ⟨pm_send_key, ?_, ?_, ?_, ?_⟩
  · intro M fuel key evs h
    rw [press_events, press_acts] at h
    rcases hd : keyDown_events M fuel key with _ | d
    · rw [hd] at h
      simp at h
    rcases hu : keyUp_events M fuel key with _ | u
    · rw [hd, hu] at h
      simp at h
    rw [hd, hu] at h
    simp only [Option.bind_eq_bind, Option.some_bind, Option.pure_def,
      Option.map_some', Option.some.injEq] at h
    rw [keyDown_events_chain] at hd
    rw [keyUp_events_chain] at hu
    rcases hk : keychain M fuel key with _ | K
    · rw [hk] at hd
      simp at hd
    rw [hk, Option.map_some', Option.some.injEq] at hd hu
    subst hd
    subst hu
    rw [← h, acts_events_append, acts_events_append, acts_events_map_send,
      acts_events_map_send, acts_events_sleep, List.append_nil]
    exact pm_press_release_chain K
  · intro M fuel keys evs h
    rw [hotkey_events, hotkey_acts] at h
    rcases hds : seqOpt (keys.map (keyDown_events M fuel)) with _ | ds
    · rw [hds] at h
      simp at h
    rcases hus : seqOpt (keys.reverse.map (keyUp_events M fuel)) with _ | us
    · rw [hds, hus] at h
      simp at h
    rw [hds, hus] at h
    simp only [Option.bind_eq_bind, Option.some_bind, Option.pure_def,
      Option.map_some', Option.some.injEq] at h
    rw [← h, acts_events_append, acts_events_blocks, acts_events_blocks]
    apply pressMatched_append_release
    · apply pressMatched_of_no_press
      intro e he
      rw [List.mem_flatten] at he
      obtain ⟨u, hu, heu⟩ := he
      have hmm := seqOpt_mem hus u hu
      rw [List.mem_map] at hmm
      obtain ⟨key, _, hke⟩ := hmm
      rw [keyUp_events_chain] at hke
      rcases hk : keychain M fuel key with _ | K
      · rw [hk] at hke
        simp at hke
      rw [hk, Option.map_some', Option.some.injEq] at hke
      rw [← hke] at heu
      simp only [List.mem_map] at heu
      obtain ⟨k, _, rfl⟩ := heu
      rfl
    · intro k hk
      rw [List.mem_flatten] at hk
      obtain ⟨d, hd, hkd⟩ := hk
      have hmm := seqOpt_mem hds d hd
      rw [List.mem_map] at hmm
      obtain ⟨key, hkey, hde⟩ := hmm
      rw [keyDown_events_chain] at hde
      rcases hc : keychain M fuel key with _ | K
      · rw [hc] at hde
        simp at hde
      rw [hc, Option.map_some', Option.some.injEq] at hde
      have hkK : k ∈ K := by
        rw [← hde] at hkd
        simp only [List.mem_map, KeyEv.mk.injEq] at hkd
        obtain ⟨k', hk', hkeq, _⟩ := hkd
        exact hkeq ▸ hk'
      have hrev : keyUp_events M fuel key ∈
          keys.reverse.map (keyUp_events M fuel) :=
        List.mem_map_of_mem _ (List.mem_reverse.mpr hkey)
      obtain ⟨u, hu, hueq⟩ := seqOpt_forall hus _ hrev
      rw [keyUp_events_chain, hc, Option.map_some'] at hueq
      rw [List.mem_flatten]
      refine ⟨u, hu, ?_⟩
      have : u = K.map (fun k => KeyEv.mk k false) := by
        injection hueq with h'
        exact h'.symm
      rw [this]
      simp only [List.mem_map, KeyEv.mk.injEq]
      exact ⟨k, hkK, rfl, trivial⟩
  · exact pressMatchedB_sound _ (by decide)
  · intro mc msf text
    rw [send_input_events]
    exact pm_send_input_go mc msf _ 0 text.data

/-- C9, witness: balancedness at concrete inputs — a bare send_key, a
shifted keyboard press, a three-key hotkey and a text run. -/
theorem C9_witness :
    pressMatched (send_key_events "KeyA") ∧
    pressMatched [⟨"ShiftLeft", true⟩, ⟨"KeyA", true⟩,
                  ⟨"ShiftLeft", false⟩, ⟨"KeyA", false⟩] ∧
    pressMatched [⟨"ControlLeft", true⟩, ⟨"AltLeft", true⟩,
                  ⟨"Delete", true⟩, ⟨"Delete", false⟩,
                  ⟨"AltLeft", false⟩, ⟨"ControlLeft", false⟩] ∧
    pressMatched (send_input_events [] [] "H2") :=
  ⟨C9_press_release_balanced.1 "KeyA",
   C9_press_release_balanced.2.1 testMaps 2 "A" _ rfl,
   C9_press_release_balanced.2.2.1 testMaps 2 ["ctrl", "alt", "delete"]
     _ rfl,
   C9_press_release_balanced.2.2.2.2 [] [] "H2"⟩
